import Mathlib

/-!
Verification of the VibeTutor front end: a shallow embedding of the
response-shaping, exam, graph-layout and audio-decoding logic of the
repository, together with proofs of the specification's claims about it.
-/

namespace VibeTutor

/-! ## JSON value model

`JSON.parse` produces JavaScript values.  We model them with `Json`:
strings are kept as their UTF-16 code-unit sequences (the representation a
JS engine uses), numbers keep their lexical parts so that JS truthiness
(`value != 0`) remains decidable. -/

/-- Lexical parts of a JSON number: sign, integer digits, fraction digits,
exponent lexeme (empty when absent). -/
structure JNum where
  neg : Bool
  ip : List Char
  fp : List Char
  ep : List Char

/-- A JavaScript value produced by `JSON.parse`.  Object members are kept in
textual order; duplicate keys are resolved at lookup time (last one wins,
matching `JSON.parse`). -/
inductive Json where
  | null
  | bool (b : Bool)
  | num (n : JNum)
  | str (units : List Nat)
  | arr (xs : List Json)
  | obj (kvs : List (List Nat × Json))

/-- Code units of an ASCII Lean string, used for JS property names. -/
def strU (s : String) : List Nat := s.data.map Char.toNat

/-- JSON whitespace accepted by `JSON.parse` around tokens. -/
def jsonWs (c : Char) : Bool := c = ' ' || c = '\t' || c = '\n' || c = '\r'

/-- Drop JSON whitespace. -/
def skipWs (cs : List Char) : List Char := cs.dropWhile jsonWs

/-- Decimal digit test. -/
def isDigit (c : Char) : Bool := '0' ≤ c && c ≤ '9'

/-- Hexadecimal digit value, for `\u` escapes. -/
def hexVal (c : Char) : Option Nat :=
  if '0' ≤ c && c ≤ '9' then some (c.toNat - 48)
  else if 'a' ≤ c && c ≤ 'f' then some (c.toNat - 97 + 10)
  else if 'A' ≤ c && c ≤ 'F' then some (c.toNat - 65 + 10)
  else none

/-- Parse the body of a JSON string after the opening quote, producing the
code units and the remaining input.  Mirrors `JSON.parse`: the listed
escapes, a `\u` escape with four hex digits, and a ban on raw control
characters. -/
def parseStringBody : Nat → List Char → Option (List Nat × List Char)
  | 0, _ => none
  | _ + 1, [] => none
  | fuel + 1, c :: rest =>
    if c = '"' then some ([], rest)
    else if c = '\\' then
      match rest with
      | [] => none
      | e :: rest2 =>
        let cont := fun (u : Nat) (rs : List Char) =>
          match parseStringBody fuel rs with
          | some (us, r) => some (u :: us, r)
          | none => none
        if e = '"' then cont 34 rest2
        else if e = '\\' then cont 92 rest2
        else if e = '/' then cont 47 rest2
        else if e = 'b' then cont 8 rest2
        else if e = 'f' then cont 12 rest2
        else if e = 'n' then cont 10 rest2
        else if e = 'r' then cont 13 rest2
        else if e = 't' then cont 9 rest2
        else if e = 'u' then
          match rest2 with
          | h1 :: h2 :: h3 :: h4 :: rest3 =>
            match hexVal h1, hexVal h2, hexVal h3, hexVal h4 with
            | some a, some b, some c2, some d => cont (((a * 16 + b) * 16 + c2) * 16 + d) rest3
            | _, _, _, _ => none
          | _ => none
        else none
    else if c.toNat < 32 then none
    else
      match parseStringBody fuel rest with
      | some (us, r) => some (c.toNat :: us, r)
      | none => none

/-- Parse an optional JSON fraction part (a dot followed by one or more
digits), returning the fraction digits and remaining input. -/
def parseFrac : List Char → Option (List Char × List Char)
  | '.' :: r =>
    let ds := r.takeWhile isDigit
    if ds.isEmpty then none else some (ds, r.dropWhile isDigit)
  | cs => some ([], cs)

/-- Parse an optional JSON exponent part, returning its lexeme and the
remaining input. -/
def parseExp : List Char → Option (List Char × List Char)
  | c :: r =>
    if c = 'e' || c = 'E' then
      match r with
      | s :: r2 =>
        if s = '+' || s = '-' then
          let ds := r2.takeWhile isDigit
          if ds.isEmpty then none else some (c :: s :: ds, r2.dropWhile isDigit)
        else
          let ds := r.takeWhile isDigit
          if ds.isEmpty then none else some (c :: ds, r.dropWhile isDigit)
      | [] => none
    else some ([], c :: r)
  | [] => some ([], [])

/-- Parse a JSON number starting at the given input (which must start with
`-` or a digit), following the JSON grammar: no leading zeros, optional
fraction and exponent. -/
def parseNumber (cs : List Char) : Option (JNum × List Char) :=
  let s := match cs with
    | '-' :: r => (true, r)
    | _ => (false, cs)
  match s.2 with
  | c :: r =>
    if c = '0' then
      match parseFrac r with
      | some (fp, r2) =>
        match parseExp r2 with
        | some (ep, r3) => some (⟨s.1, ['0'], fp, ep⟩, r3)
        | none => none
      | none => none
    else if isDigit c then
      let ds := r.takeWhile isDigit
      match parseFrac (r.dropWhile isDigit) with
      | some (fp, r2) =>
        match parseExp r2 with
        | some (ep, r3) => some (⟨s.1, c :: ds, fp, ep⟩, r3)
        | none => none
      | none => none
    else none
  | [] => none

mutual

/-- Parse one JSON value (after skipping leading whitespace), returning the
value and remaining input.  The fuel argument strictly decreases at every
recursive call; `jsonParseL` supplies enough fuel for any input. -/
def parseValue : Nat → List Char → Option (Json × List Char)
  | 0, _ => none
  | fuel + 1, cs =>
    match skipWs cs with
    | [] => none
    | c :: rest =>
      if c = 'n' then
        match rest with
        | 'u' :: 'l' :: 'l' :: r => some (.null, r)
        | _ => none
      else if c = 't' then
        match rest with
        | 'r' :: 'u' :: 'e' :: r => some (.bool true, r)
        | _ => none
      else if c = 'f' then
        match rest with
        | 'a' :: 'l' :: 's' :: 'e' :: r => some (.bool false, r)
        | _ => none
      else if c = '"' then
        match parseStringBody (rest.length + 1) rest with
        | some (us, r) => some (.str us, r)
        | none => none
      else if c = '[' then
        match skipWs rest with
        | ']' :: r => some (.arr [], r)
        | _ =>
          match parseElems fuel rest with
          | some (xs, r) => some (.arr xs, r)
          | none => none
      else if c = '{' then
        match skipWs rest with
        | '}' :: r => some (.obj [], r)
        | _ =>
          match parseMembers fuel rest with
          | some (kvs, r) => some (.obj kvs, r)
          | none => none
      else if c = '-' || isDigit c then
        match parseNumber (c :: rest) with
        | some (n, r) => some (.num n, r)
        | none => none
      else none

/-- Parse the elements of a non-empty JSON array up to and including the
closing bracket. -/
def parseElems : Nat → List Char → Option (List Json × List Char)
  | 0, _ => none
  | fuel + 1, cs =>
    match parseValue fuel cs with
    | some (v, r) =>
      match skipWs r with
      | ',' :: r2 =>
        match parseElems fuel r2 with
        | some (vs, r3) => some (v :: vs, r3)
        | none => none
      | ']' :: r2 => some ([v], r2)
      | _ => none
    | none => none

/-- Parse the members of a non-empty JSON object up to and including the
closing brace. -/
def parseMembers : Nat → List Char → Option (List (List Nat × Json) × List Char)
  | 0, _ => none
  | fuel + 1, cs =>
    match skipWs cs with
    | '"' :: r =>
      match parseStringBody (r.length + 1) r with
      | some (k, r2) =>
        match skipWs r2 with
        | ':' :: r3 =>
          match parseValue fuel r3 with
          | some (v, r4) =>
            match skipWs r4 with
            | ',' :: r5 =>
              match parseMembers fuel r5 with
              | some (kvs, r6) => some ((k, v) :: kvs, r6)
              | none => none
            | '}' :: r5 => some ([(k, v)], r5)
            | _ => none
          | none => none
        | _ => none
      | none => none
    | _ => none

end

/-- `JSON.parse` on a character list: parse one value and require nothing
but whitespace after it; `none` models a thrown `SyntaxError`. -/
def jsonParseL (cs : List Char) : Option Json :=
  match parseValue (cs.length + 1) cs with
  | some (v, rest) => if (skipWs rest).isEmpty then some v else none
  | none => none

/-- `JSON.parse` on a Lean string. -/
def jsonParse (s : String) : Option Json := jsonParseL s.data

/-! ## The markdown-fence cleanup of `safeParseJSON`

`src/services/geminiService.ts` retries a failed parse after
`text.replace(/```json\s*|\s*```/g, "").trim()`.  `matchAlt1` and
`matchAlt2` are the two alternatives of that regular expression, and
`replaceFenceF` is the left-to-right global replacement. -/

/-- JavaScript whitespace as matched by the regex class `\s` and removed by
`String.prototype.trim`. -/
def jsWs (c : Char) : Bool :=
  c = ' ' || c = '\t' || c = '\n' || c = '\r' || c = '\x0b' || c = '\x0c' ||
  c = '\u00A0' || c = '\u1680' || ('\u2000' ≤ c && c ≤ '\u200A') ||
  c = '\u2028' || c = '\u2029' || c = '\u202F' || c = '\u205F' ||
  c = '\u3000' || c = '\uFEFF'

/-- The seven characters of the tagged fence opening. -/
def fenceTag : List Char := ['`', '`', '`', 'j', 's', 'o', 'n']

/-- A fence opening as emitted before a JSON body: the tagged fence and a
newline. -/
def fenceOpen : List Char := ['`', '`', '`', 'j', 's', 'o', 'n', '\n']

/-- A fence closing after a JSON body: a newline and the triple
backtick. -/
def fenceClose : List Char := ['\n', '`', '`', '`']

/-- First regex alternative: the literal backtick fence with its `json` tag
followed by greedy `\s*`.  Returns the input after the match when the
alternative matches at the current position. -/
def matchAlt1 (cs : List Char) : Option (List Char) :=
  if cs.take 7 = fenceTag then some ((cs.drop 7).dropWhile jsWs) else none

/-- Second regex alternative: greedy `\s*` followed by a literal triple
backtick.  Backtracking over the whitespace run cannot help (a shorter run
still ends on a whitespace character, never a backtick), so the
alternative matches exactly when the first non-whitespace characters are a
triple backtick. -/
def matchAlt2 (cs : List Char) : Option (List Char) :=
  if (cs.dropWhile jsWs).take 3 = ['`', '`', '`'] then some ((cs.dropWhile jsWs).drop 3)
  else none

/-- Global replacement of the fence regex by the empty string: at each
position try the first alternative, then the second, else keep the
character.  The fuel (always at least the input length) makes the
recursion structural; every match consumes at least three characters. -/
def replaceFenceF : Nat → List Char → List Char
  | 0, cs => cs
  | fuel + 1, cs =>
    match matchAlt1 cs with
    | some rem => replaceFenceF fuel rem
    | none =>
      match matchAlt2 cs with
      | some rem => replaceFenceF fuel rem
      | none =>
        match cs with
        | [] => []
        | c :: rest => c :: replaceFenceF fuel rest

/-- `text.replace(/```json\s*|\s*```/g, "")`. -/
def replaceFence (cs : List Char) : List Char := replaceFenceF cs.length cs

/-- `String.prototype.trim`: strip JS whitespace from both ends. -/
def trimL (cs : List Char) : List Char :=
  ((cs.dropWhile jsWs).reverse.dropWhile jsWs).reverse

/-- The cleaned text parsed by the second attempt of `safeParseJSON`. -/
def cleanedTextL (cs : List Char) : List Char := trimL (replaceFence cs)

/-- `safeParseJSON` from `src/services/geminiService.ts`: `null` for empty
or absent text, else a direct `JSON.parse`, else a parse of the cleaned
text, else `null`. -/
def safeParseJSONL (cs : List Char) : Json :=
  if cs.isEmpty then .null
  else
    match jsonParseL cs with
    | some v => v
    | none =>
      match jsonParseL (cleanedTextL cs) with
      | some v => v
      | none => .null

/-- `safeParseJSON(text)` where `text : string | undefined`. -/
def safeParseJSON (t : Option String) : Json :=
  match t with
  | none => .null
  | some s => safeParseJSONL s.data

/-! ## JavaScript value helpers used by the response shaping -/

/-- Is this JSON number zero (the only falsy number `JSON.parse` can
produce)?  A number is zero exactly when all integer and fraction digits
are `0`, whatever the exponent. -/
def numIsZero (n : JNum) : Bool := n.ip.all (· = '0') && n.fp.all (· = '0')

/-- JavaScript truthiness of a parsed JSON value. -/
def Json.truthy : Json → Bool
  | .null => false
  | .bool b => b
  | .num n => !numIsZero n
  | .str u => !u.isEmpty
  | .arr _ => true
  | .obj _ => true

/-- JavaScript property access `v[k]`: a data property exists only on
objects here; duplicate keys resolve to the last occurrence, as
`JSON.parse` assigns members in textual order.  `none` models
`undefined`. -/
def Json.getField : Json → List Nat → Option Json
  | .obj kvs, k => (kvs.reverse.find? (fun p => decide (p.1 = k))).map (·.2)
  | _, _ => none

/-- JavaScript `a || b` on a possibly-`undefined` left operand. -/
def jsOr (v : Option Json) (d : Json) : Json :=
  match v with
  | some j => if j.truthy then j else d
  | none => d

/-- JavaScript `a || b` on a JS value. -/
def jsOrVal (j d : Json) : Json := if j.truthy then j else d

/-! ## Response shaping of the service layer

Each `generate*` function of `src/services/geminiService.ts` is one
request/response round trip; the request itself is an opaque external
call, so the embedding covers the pure response-shaping part: what the
function does with the reply text it gets back. -/

/-- The runtime value `parseSyllabus` builds (the TS cast `as
CourseStructure` does not constrain the runtime fields). -/
structure CourseStructureJs where
  title : Json
  description : Json
  modules : List Json

/-- Response shaping of `parseSyllabus`: parse safely, throw on a falsy
result, else apply the `||` / `Array.isArray` defaults. -/
def parseSyllabusShape (text : Option String) : Except String CourseStructureJs :=
  let parsed := safeParseJSON text
  if !parsed.truthy then
    .error "Failed to parse syllabus structure. The response might be incomplete or invalid."
  else
    .ok
      { title := jsOr (parsed.getField (strU "title")) (.str (strU "Untitled Course"))
        description := jsOr (parsed.getField (strU "description")) (.str [])
        modules :=
          match parsed.getField (strU "modules") with
          | some (.arr xs) => xs
          | _ => [] }

/-- The runtime value `generateKnowledgeGraph` returns. -/
structure KnowledgeGraphDataJs where
  nodes : List Json
  links : List Json

/-- Response shaping of `generateKnowledgeGraph`:
`safeParseJSON(text) || {}` then `Array.isArray` coercions on both
fields. -/
def generateKnowledgeGraphShape (text : Option String) : KnowledgeGraphDataJs :=
  let parsed := jsOrVal (safeParseJSON text) (.obj [])
  { nodes :=
      match parsed.getField (strU "nodes") with
      | some (.arr xs) => xs
      | _ => []
    links :=
      match parsed.getField (strU "links") with
      | some (.arr xs) => xs
      | _ => [] }

/-- Response shaping of `generateExam`: `safeParseJSON(text) || []`, kept
only when it is an array. -/
def generateExamShape (text : Option String) : List Json :=
  match jsOrVal (safeParseJSON text) (.arr []) with
  | .arr xs => xs
  | _ => []

/-- Response shaping of `generateLessonContent`:
`response.text || "Failed to generate content."`. -/
def generateLessonShape (text : Option String) : String :=
  match text with
  | none => "Failed to generate content."
  | some s => if s = "" then "Failed to generate content." else s

/-! ## Knowledge-graph layout initialization

`src/components/KnowledgeGraph.tsx` hands the typed graph straight to
`d3.forceLink(links).id(d => d.id)`.  When the link force is attached to
the simulation, d3 builds a `Map` from node id to node (later duplicates
overwrite earlier ones) and resolves every link's string endpoints through
`find`, which throws `new Error("node not found: " + nodeId)` for an id
absent from the map. -/

/-- A node of the typed `KnowledgeGraphData` (src/types.ts). -/
structure KnowledgeNode where
  id : String
  group : Int
  label : String
  status : String

/-- A link of the typed `KnowledgeGraphData` (src/types.ts). -/
structure KnowledgeLink where
  source : String
  target : String
  value : Int

/-- The typed graph handed to the layout component. -/
structure KnowledgeGraphData where
  nodes : List KnowledgeNode
  links : List KnowledgeLink

/-- The d3 `Map` lookup `nodeById.get(id)`: the map is built by inserting
nodes in order, so a duplicated id resolves to the last node carrying
it. -/
def nodeById (nodes : List KnowledgeNode) (i : String) : Option KnowledgeNode :=
  nodes.reverse.find? (fun n => n.id == i)

/-- d3's `find(nodeById, nodeId)`: return the node or throw
`"node not found: " + nodeId`. -/
def d3Find (nodes : List KnowledgeNode) (i : String) : Except String KnowledgeNode :=
  match nodeById nodes i with
  | some n => .ok n
  | none => .error ("node not found: " ++ i)

/-- The endpoint-resolution loop of `d3.forceLink(...).initialize`: resolve
each link's source then target, stopping with the thrown error on the
first missing id. -/
def forceLinkInit (nodes : List KnowledgeNode) : List KnowledgeLink →
    Except String (List (KnowledgeNode × KnowledgeNode))
  | [] => .ok []
  | l :: rest =>
    match d3Find nodes l.source with
    | .error e => .error e
    | .ok s =>
      match d3Find nodes l.target with
      | .error e => .error e
      | .ok t =>
        match forceLinkInit nodes rest with
        | .error e => .error e
        | .ok r => .ok ((s, t) :: r)

/-- The layout effect of the `KnowledgeGraph` component: with zero nodes it
returns before starting any simulation (`none`); otherwise it copies the
data and attaches the link force, whose initialization resolves every
edge. -/
def knowledgeGraphEffect (g : KnowledgeGraphData) :
    Option (Except String (List (KnowledgeNode × KnowledgeNode))) :=
  if g.nodes.isEmpty then none
  else some (forceLinkInit g.nodes g.links)

/-! ## Exam surface (src/components/ExamModal.tsx)

The modal keeps `answers : Record<number, number>` and a `submitted` flag.
`answers` is modelled as an association list with the object-spread update
`{...prev, [qId]: optionIdx}` (overwrite an existing key in place, append
a new key), which keeps the keys distinct, so `Object.keys(answers).length`
is the list length. -/

/-- An exam question (src/types.ts). -/
structure ExamQuestionT where
  id : Int
  question : String
  options : List String
  correctAnswerIndex : Int
  explanation : String

/-- The object-spread update `{...prev, [qId]: optionIdx}`. -/
def upsert (m : List (Int × Int)) (k v : Int) : List (Int × Int) :=
  if m.any (fun p => p.1 == k) then m.map (fun p => if p.1 == k then (k, v) else p)
  else m ++ [(k, v)]

/-- JavaScript `answers[q.id]`: `none` is `undefined`. -/
def lookupAns (m : List (Int × Int)) (k : Int) : Option Int :=
  (m.find? (fun p => p.1 == k)).map (·.2)

/-- The `disabled` condition of the Submit Exam button:
`Object.keys(answers).length !== questions.length`. -/
def submitDisabled (questions : List ExamQuestionT) (answers : List (Int × Int)) : Bool :=
  answers.length != questions.length

/-- `calculateScore` from `ExamModal.tsx`: walk the questions, adding one
whenever `answers[q.id] === q.correctAnswerIndex`. -/
def calculateScore (questions : List ExamQuestionT) (answers : List (Int × Int)) : Nat :=
  questions.foldl
    (fun score q => if lookupAns answers q.id == some q.correctAnswerIndex then score + 1 else score)
    0

/-- The mutable state of the exam modal. -/
structure ExamState where
  answers : List (Int × Int)
  submitted : Bool

/-- User events the exam surface reacts to. -/
inductive ExamEvent where
  | select (qId optIdx : Int)
  | submit

/-- One step of the exam surface: `handleSelect` returns early once
submitted, else upserts the answer; the Submit button flips `submitted`
only while rendered (not yet submitted) and enabled. -/
def examStep (questions : List ExamQuestionT) (s : ExamState) : ExamEvent → ExamState
  | .select q i => if s.submitted then s else { s with answers := upsert s.answers q i }
  | .submit =>
    if submitDisabled questions s.answers || s.submitted then s
    else { s with submitted := true }

/-- A selection event can only originate from an option button of a
rendered question, so its question id occurs in the question list. -/
def validEvent (questions : List ExamQuestionT) : ExamEvent → Prop
  | .select q _ => q ∈ questions.map (·.id)
  | .submit => True

/-- Run the exam surface from a fresh mount (empty answers, not
submitted) over a sequence of events. -/
def runExam (questions : List ExamQuestionT) (events : List ExamEvent) : ExamState :=
  events.foldl (examStep questions) ⟨[], false⟩

/-! ## Audio decoding and playback (src/utils/audioUtils.ts)

`decodeAudioData` base64-decodes the transport string with `atob`, views
the bytes as a little-endian `Int16Array` (whose construction throws on an
odd byte count), and scales each sample by `1 / 32768` into a
single-channel `AudioBuffer`.  Sample values `k / 32768` with
`|k| ≤ 32768` are exactly representable in binary floating point, so the
samples are modelled as rationals with no rounding. -/

/-- Value of one base64 alphabet character. -/
def b64Val (c : Char) : Option Nat :=
  if 'A' ≤ c && c ≤ 'Z' then some (c.toNat - 65)
  else if 'a' ≤ c && c ≤ 'z' then some (c.toNat - 97 + 26)
  else if '0' ≤ c && c ≤ '9' then some (c.toNat - 48 + 52)
  else if c = '+' then some 62
  else if c = '/' then some 63
  else none

/-- Base64 decoding of a padding-stripped character sequence, four
characters to three bytes, with the final partial group of two or three
characters yielding one or two bytes. -/
def atobCore : List Char → Option (List Nat)
  | [] => some []
  | [_] => none
  | [c1, c2] => do
    let a ← b64Val c1
    let b ← b64Val c2
    some [a * 4 + b / 16]
  | [c1, c2, c3] => do
    let a ← b64Val c1
    let b ← b64Val c2
    let c ← b64Val c3
    some [a * 4 + b / 16, (b % 16) * 16 + c / 4]
  | c1 :: c2 :: c3 :: c4 :: rest => do
    let a ← b64Val c1
    let b ← b64Val c2
    let c ← b64Val c3
    let d ← b64Val c4
    let r ← atobCore rest
    some ((a * 4 + b / 16) :: ((b % 16) * 16 + c / 4) :: ((c % 4) * 64 + d) :: r)

/-- Strip up to two trailing `=` padding characters. -/
def stripPad (cs : List Char) : List Char :=
  match cs.reverse with
  | '=' :: '=' :: r => r.reverse
  | '=' :: r => r.reverse
  | _ => cs

/-- `atob`: the forgiving-base64 decode — remove ASCII whitespace, strip
padding when the length is a multiple of four, then decode; `none` models
the thrown `InvalidCharacterError`. -/
def atobModel (s : String) : Option (List Nat) :=
  let cs := s.data.filter
    (fun c => !(c = ' ' || c = '\t' || c = '\n' || c = '\x0c' || c = '\r'))
  atobCore (if cs.length % 4 == 0 then stripPad cs else cs)

/-- Reading one element of a little-endian `Int16Array`: two's-complement
interpretation of a 16-bit pattern. -/
def u16ToInt (u : Nat) : Int := if u < 32768 then (u : Int) else (u : Int) - 65536

/-- `new Int16Array(bytes.buffer)`: group the bytes pairwise
little-endian; an odd byte count throws a `RangeError` (`none`). -/
def bytesToInt16LE : List Nat → Option (List Int)
  | [] => some []
  | [_] => none
  | lo :: hi :: rest => (bytesToInt16LE rest).map (fun r => u16ToInt (lo + 256 * hi) :: r)

/-- The playable buffer built by `decodeAudioData`. -/
structure AudioBufferModel where
  numChannels : Nat
  length : Nat
  sampleRate : Nat
  channel0 : List ℚ

/-- Duration in seconds of an `AudioBuffer`: `length / sampleRate`. -/
def AudioBufferModel.duration (b : AudioBufferModel) : ℚ :=
  (b.length : ℚ) / (b.sampleRate : ℚ)

/-- `decodeAudioData` from `src/utils/audioUtils.ts`: base64-decode, view
as little-endian 16-bit mono samples, scale by `1 / 32768`. -/
def decodeAudioDataModel (b64 : String) (sampleRate : Nat) : Option AudioBufferModel :=
  match atobModel b64 with
  | none => none
  | some bytes =>
    match bytesToInt16LE bytes with
    | none => none
    | some ints =>
      some
        { numChannels := 1
          length := ints.length
          sampleRate := sampleRate
          channel0 := ints.map (fun (v : Int) => (v : ℚ) / 32768) }

/-- The caller in `App` (`playAudioTutor`) omits the sample-rate argument,
so the source default `24000` applies. -/
def decodeAudioDataDefault (b64 : String) : Option AudioBufferModel :=
  decodeAudioDataModel b64 24000

/-- The little-endian byte serialization of signed 16-bit samples — the
transport format named by the spec. -/
def int16ToU16 (s : Int) : Nat := (s + 65536).toNat % 65536

/-- PCM16 little-endian byte stream of a sample list. -/
def pcm16Bytes (samples : List Int) : List Nat :=
  samples.flatMap (fun s => [int16ToU16 s % 256, int16ToU16 s / 256])

/-! ## Audio playback as a timed resource

`playAudioBuffer` creates a source node, connects it and calls
`start()`; the handle it returns is discarded by `playAudioTutor` and
`stop()` is never called anywhere in the repository, so per the Web Audio
semantics each started source keeps playing for its buffer's duration.
The session records each start as a `(startTime, duration)` pair. -/

/-- Started (and never stopped) playback intervals of a session, as
(start time, duration) pairs in milliseconds. -/
structure AudioSession where
  playing : List (Int × Int)

/-- `playAudioBuffer` at a given current time with a buffer of the given
duration: start one more source; nothing is stopped. -/
def playAudioBufferModel (sess : AudioSession) (now dur : Int) : AudioSession :=
  { playing := sess.playing ++ [(now, dur)] }

/-- How many started sources are audible at time `t`. -/
def playingCount (sess : AudioSession) (t : Int) : Nat :=
  sess.playing.countP (fun p => decide (p.1 ≤ t ∧ t < p.1 + p.2))

/-! ## Lesson-content slot and the depth-change effect (App, part_001)

The depth-change effect runs `generateLessonContent(...).then(setLessonContent)`
with no request token, version counter or cancellation: whenever any
lesson response arrives, its text unconditionally replaces the
lesson-content state. -/

/-- The `.then(setLessonContent)` handler: the arriving response replaces
the current content, whichever request it belonged to. -/
def onLessonResponse (_current responseText : String) : String := responseText

/-- Lesson-content state after a sequence of lesson responses has arrived,
in arrival order. -/
def applyLessonArrivals (content : String) (arrivals : List String) : String :=
  arrivals.foldl onLessonResponse content

/-! ## Claims -/

/-- C1: out-of-order lesson responses.  Two rapid depth changes issue a
first (superseded) and a second (latest) request.  When the second
request's response "deep dive text" arrives first and the superseded
first request's response "summary text" arrives after it, the
unconditional `setLessonContent` handler leaves the state equal to the
first request's result — the superseded response is applied, not
discarded, so the state does not end at the second request's result. -/
theorem lesson_race_stale_overwrite :
    applyLessonArrivals "" ["deep dive text", "summary text"] = "summary text"
    ∧ (("summary text" : String) == "deep dive text") = false :=
  ⟨rfl, rfl⟩

/-- C5: when a reply fails to parse even after the fence cleanup,
`parseSyllabus` throws its error, `generateKnowledgeGraph` shapes the
empty graph and `generateExam` shapes the empty question list. -/
theorem malformed_response_outcomes (t : String)
    (h1 : jsonParseL t.data = none) (h2 : jsonParseL (cleanedTextL t.data) = none) :
    parseSyllabusShape (some t) =
      .error "Failed to parse syllabus structure. The response might be incomplete or invalid."
    ∧ generateKnowledgeGraphShape (some t) = ⟨[], []⟩
    ∧ generateExamShape (some t) = [] := by
  have hn : safeParseJSON (some t) = .null := by
    show safeParseJSONL t.data = .null
    unfold safeParseJSONL
    rw [h1, h2]
    split <;> rfl
  refine ⟨?_, ?_, ?_⟩ <;>
    simp [parseSyllabusShape, generateKnowledgeGraphShape, generateExamShape, hn,
      jsOrVal, Json.truthy, Json.getField]

/-- Witness for C5 at the unparseable reply text "oops". -/
theorem malformed_response_outcomes_witness :
    parseSyllabusShape (some "oops") =
      .error "Failed to parse syllabus structure. The response might be incomplete or invalid."
    ∧ generateKnowledgeGraphShape (some "oops") = ⟨[], []⟩
    ∧ generateExamShape (some "oops") = [] :=
  malformed_response_outcomes "oops" (by rfl) (by rfl)

/-- C6 counterexample: with zero questions the Submit Exam button's
disabled condition `0 !== 0` is false, so submission is enabled and a
fresh zero-question exam can be submitted immediately — it is not
disabled as the claim states. -/
theorem exam_zero_questions_submit_enabled :
    submitDisabled ([] : List ExamQuestionT) [] = false
    ∧ (runExam [] [ExamEvent.submit]).submitted = true :=
  ⟨rfl, rfl⟩

/-- Helper: reading back a serialized 16-bit sample recovers it. -/
theorem u16ToInt_int16ToU16 (s : Int) (h1 : -32768 ≤ s) (h2 : s < 32768) :
    u16ToInt (int16ToU16 s) = s := by
  simp only [u16ToInt, int16ToU16]
  split <;> omega

/-- Helper: the `Int16Array` view of the PCM16 serialization recovers the
samples. -/
theorem bytesToInt16LE_pcm (samples : List Int)
    (h : ∀ s ∈ samples, -32768 ≤ s ∧ s < 32768) :
    bytesToInt16LE (pcm16Bytes samples) = some samples := by
  induction samples with
  | nil => rfl
  | cons s rest ih =>
    have hs := h s (List.mem_cons_self _ _)
    have hrest := ih (fun x hx => h x (List.mem_cons_of_mem _ hx))
    have hu : int16ToU16 s % 256 + 256 * (int16ToU16 s / 256) = int16ToU16 s := by omega
    simp only [pcm16Bytes, List.flatMap_cons]
    show bytesToInt16LE (int16ToU16 s % 256 :: int16ToU16 s / 256 :: pcm16Bytes rest) = _
    simp only [bytesToInt16LE, hrest, Option.map_some']
    rw [hu, u16ToInt_int16ToU16 s hs.1 hs.2]

/-- C8: a base64 transport string carrying the little-endian PCM16 bytes
of in-range samples decodes to a single-channel buffer of exactly that
many samples at the default 24000 Hz rate, each sample being the signed
16-bit value divided by 32768, every sample lying in −1..1, and the
buffer's duration being the sample count over 24000 seconds. -/
theorem decodeAudioData_spec (b64 : String) (samples : List Int)
    (hs : ∀ s ∈ samples, -32768 ≤ s ∧ s < 32768)
    (hdec : atobModel b64 = some (pcm16Bytes samples)) :
    decodeAudioDataDefault b64 =
      some ⟨1, samples.length, 24000, samples.map (fun (s : Int) => (s : ℚ) / 32768)⟩
    ∧ (∀ x ∈ samples.map (fun (s : Int) => (s : ℚ) / 32768), -1 ≤ x ∧ x ≤ 1)
    ∧ (AudioBufferModel.duration
        ⟨1, samples.length, 24000, samples.map (fun (s : Int) => (s : ℚ) / 32768)⟩ =
        (samples.length : ℚ) / 24000) := by
  refine ⟨?_, ?_, ?_⟩
  · simp only [decodeAudioDataDefault, decodeAudioDataModel, hdec,
      bytesToInt16LE_pcm samples hs]
  · intro x hx
    rcases List.mem_map.1 hx with ⟨s, hsm, rfl⟩
    obtain ⟨hlo, hhi⟩ := hs s hsm
    constructor
    · rw [le_div_iff₀ (by norm_num : (0 : ℚ) < 32768)]
      have : (-32768 : ℚ) ≤ (s : ℚ) := by exact_mod_cast hlo
      linarith
    · rw [div_le_one (by norm_num : (0 : ℚ) < 32768)]
      have : (s : ℚ) ≤ 32768 := by exact_mod_cast (by omega : s ≤ 32768)
      linarith
  · simp [AudioBufferModel.duration]

/-- Witness for C8 at the three samples 0, −32768 and 32767, whose PCM16
stream is base64-encoded as "AAAAgP9/". -/
theorem decodeAudioData_spec_witness :
    decodeAudioDataDefault "AAAAgP9/" =
      some ⟨1, ([0, -32768, 32767] : List Int).length, 24000,
        ([0, -32768, 32767] : List Int).map (fun (s : Int) => (s : ℚ) / 32768)⟩ :=
  (decodeAudioData_spec "AAAAgP9/" [0, -32768, 32767] (by decide) (by rfl)).1

/-- The graph with one node "a" and one edge pointing at the unknown id
"b". -/
def cgBad : KnowledgeGraphData := ⟨[⟨"a", 1, "A", "available"⟩], [⟨"a", "b", 1⟩]⟩

/-- C2 counterexample: an edge whose target id "b" is absent from the node
set is not dropped before layout — attaching the link force throws
d3's "node not found" error instead, so the layout effect fails rather
than proceeding on a filtered edge set. -/
theorem graph_unknown_edge_not_dropped :
    forceLinkInit cgBad.nodes cgBad.links = Except.error "node not found: b"
    ∧ (forceLinkInit cgBad.nodes cgBad.links).isOk = false
    ∧ knowledgeGraphEffect cgBad = some (Except.error "node not found: b") :=
  ⟨rfl, rfl, rfl⟩

/-- Whether every link's endpoints resolve in the node set. -/
def linksResolve (nodes : List KnowledgeNode) (links : List KnowledgeLink) : Bool :=
  links.all (fun l => (nodeById nodes l.source).isSome && (nodeById nodes l.target).isSome)

/-- C2 amended: edges with unknown endpoint ids are not dropped; link-force
initialization succeeds exactly when every edge's source and target ids
resolve in the node set, and it throws d3's error otherwise — so the
layout never silently dereferences a missing node, but a bad edge fails
the whole graph instead of being filtered out.  When it succeeds, every
resolved endpoint is a node of the input graph. -/
theorem forceLinkInit_resolves (nodes : List KnowledgeNode) (links : List KnowledgeLink) :
    (forceLinkInit nodes links).isOk = linksResolve nodes links
    ∧ (∀ res, forceLinkInit nodes links = .ok res →
        ∀ p ∈ res, p.1 ∈ nodes ∧ p.2 ∈ nodes) := by
  induction links with
  | nil =>
    refine ⟨rfl, ?_⟩
    intro res hres p hp
    simp only [forceLinkInit] at hres
    cases hres
    simp at hp
  | cons l rest ih =>
    constructor
    · simp only [forceLinkInit, linksResolve, List.all_cons]
      cases hsrc : nodeById nodes l.source with
      | none => simp [d3Find, hsrc, Except.isOk, Except.toBool]
      | some ns =>
        cases htgt : nodeById nodes l.target with
        | none => simp [d3Find, hsrc, htgt, Except.isOk, Except.toBool]
        | some nt =>
          cases hrest : forceLinkInit nodes rest with
          | error e =>
            have h1 := ih.1
            rw [hrest] at h1
            simp only [Except.isOk, Except.toBool, linksResolve] at h1
            simp [d3Find, hsrc, htgt, hrest, Except.isOk, Except.toBool, h1.symm]
          | ok r =>
            have h1 := ih.1
            rw [hrest] at h1
            simp only [Except.isOk, Except.toBool, linksResolve] at h1
            simp [d3Find, hsrc, htgt, hrest, Except.isOk, Except.toBool, h1.symm]
    · intro res hres p hp
      simp only [forceLinkInit] at hres
      cases hsrc : nodeById nodes l.source with
      | none => simp [d3Find, hsrc] at hres
      | some ns =>
        cases htgt : nodeById nodes l.target with
        | none => simp [d3Find, hsrc, htgt] at hres
        | some nt =>
          cases hrest : forceLinkInit nodes rest with
          | error e => simp [d3Find, hsrc, htgt, hrest] at hres
          | ok r =>
            simp [d3Find, hsrc, htgt, hrest] at hres
            have hns : ns ∈ nodes := by
              have := List.mem_of_find?_eq_some hsrc
              exact List.mem_reverse.1 this
            have hnt : nt ∈ nodes := by
              have := List.mem_of_find?_eq_some htgt
              exact List.mem_reverse.1 this
            rw [← hres] at hp
            rcases List.mem_cons.mp hp with rfl | hp2
            · exact ⟨hns, hnt⟩
            · exact ih.2 r hrest p hp2

/-- Witness for C2 amended on a one-node graph with a self-loop: the
resolved endpoints of the successfully initialized link are nodes of the
graph (and the self-loop is passed through, not rejected). -/
theorem forceLinkInit_resolves_witness :
    (⟨"a", 1, "A", "available"⟩ : KnowledgeNode) ∈ [(⟨"a", 1, "A", "available"⟩ : KnowledgeNode)]
    ∧ (⟨"a", 1, "A", "available"⟩ : KnowledgeNode) ∈ [(⟨"a", 1, "A", "available"⟩ : KnowledgeNode)] :=
  (forceLinkInit_resolves [⟨"a", 1, "A", "available"⟩] [⟨"a", "a", 1⟩]).2
    [(⟨"a", 1, "A", "available"⟩, ⟨"a", 1, "A", "available"⟩)] rfl
    (⟨"a", 1, "A", "available"⟩, ⟨"a", 1, "A", "available"⟩) (List.mem_singleton.2 rfl)

/-- Helper: keys of an upsert — unchanged when the key exists, appended
otherwise. -/
theorem upsert_keys (m : List (Int × Int)) (k v : Int) :
    (upsert m k v).map Prod.fst =
      if m.any (fun p => p.1 == k) then m.map Prod.fst else m.map Prod.fst ++ [k] := by
  unfold upsert
  split
  · rw [List.map_map]
    refine List.map_congr_left ?_
    intro p _
    by_cases hp : p.1 == k
    · simp only [Function.comp, hp, if_pos]
      exact (eq_of_beq hp).symm
    · simp [Function.comp, hp]
  · simp

/-- Helper: a key is found exactly when it occurs among the keys. -/
theorem lookupAns_isSome_of_mem (m : List (Int × Int)) (k : Int)
    (h : k ∈ m.map Prod.fst) : (lookupAns m k).isSome := by
  induction m with
  | nil => simp at h
  | cons p m ih =>
    by_cases hp : p.1 == k
    · simp [lookupAns, List.find?, hp]
    · have hk : k ∈ m.map Prod.fst := by
        rcases List.mem_cons.mp h with h1 | h1
        · exact absurd (by simp [h1.symm]) hp
        · exact h1
      have := ih hk
      simpa [lookupAns, List.find?, hp] using this

/-- Helper: a list without duplicates that fits inside a list of at most
its own length contains every element of the bigger list. -/
theorem mem_of_nodup_subset_length {L M : List Int} (hn : L.Nodup)
    (hsub : ∀ x ∈ L, x ∈ M) (hlen : M.length ≤ L.length) : ∀ x ∈ M, x ∈ L := by
  intro x hx
  have h1 : L.toFinset.card = L.length := List.toFinset_card_of_nodup hn
  have h2 : L.toFinset ⊆ M.toFinset := by
    intro y hy
    exact List.mem_toFinset.2 (hsub y (List.mem_toFinset.1 hy))
  have h3 : M.toFinset.card ≤ M.length := M.toFinset_card_le
  have h4 : L.toFinset = M.toFinset :=
    Finset.eq_of_subset_of_card_le h2 (by omega)
  have h5 : x ∈ M.toFinset := List.mem_toFinset.2 hx
  rw [← h4] at h5
  exact List.mem_toFinset.1 h5

/-- The inductive invariant of the exam surface: answer keys are distinct
and come from rendered questions, and once submitted every question has
an answer. -/
def ExamInv (questions : List ExamQuestionT) (s : ExamState) : Prop :=
  (s.answers.map Prod.fst).Nodup
  ∧ (∀ k ∈ s.answers.map Prod.fst, k ∈ questions.map (·.id))
  ∧ (s.submitted = true → ∀ q ∈ questions, (lookupAns s.answers q.id).isSome)

/-- Helper: each exam event preserves the invariant. -/
theorem examStep_inv (questions : List ExamQuestionT) (s : ExamState) (e : ExamEvent)
    (hv : validEvent questions e) (h : ExamInv questions s) :
    ExamInv questions (examStep questions s e) := by
  obtain ⟨hnd, hsub, hans⟩ := h
  cases e with
  | select q i =>
    simp only [examStep]
    split
    · exact ⟨hnd, hsub, hans⟩
    · rename_i hnotsub
      refine ⟨?_, ?_, ?_⟩
      · rw [upsert_keys]
        split
        · exact hnd
        · rename_i hany
          have hq : q ∉ s.answers.map Prod.fst := by
            intro hmem
            rcases List.mem_map.1 hmem with ⟨p, hp, hpq⟩
            exact hany (List.any_eq_true.2 ⟨p, hp, by simp [hpq]⟩)
          rw [List.nodup_append]
          refine ⟨hnd, List.nodup_singleton _, ?_⟩
          intro a ha hb
          rw [List.mem_singleton] at hb
          exact hq (hb ▸ ha)
      · intro k hk
        rw [upsert_keys] at hk
        split at hk
        · exact hsub k hk
        · rcases List.mem_append.1 hk with h1 | h1
          · exact hsub k h1
          · have hkq : k = q := List.mem_singleton.1 h1
            subst hkq
            exact hv
      · intro habs
        simp only [ExamState.submitted] at habs
        exact absurd habs hnotsub
  | submit =>
    simp only [examStep]
    split
    · exact ⟨hnd, hsub, hans⟩
    · rename_i hcond
      rw [Bool.or_eq_true, not_or] at hcond
      obtain ⟨hdis, _⟩ := hcond
      refine ⟨hnd, hsub, ?_⟩
      intro _ q hq
      have hlen : s.answers.length = questions.length := by
        simpa [submitDisabled] using hdis
      have hkeys : ∀ x ∈ questions.map (·.id), x ∈ s.answers.map Prod.fst := by
        refine mem_of_nodup_subset_length hnd hsub ?_
        simp [hlen]
      exact lookupAns_isSome_of_mem _ _ (hkeys q.id (List.mem_map.2 ⟨q, hq, rfl⟩))

/-- Helper: running any valid event sequence preserves the invariant. -/
theorem runExam_inv (questions : List ExamQuestionT) :
    ∀ (events : List ExamEvent) (s : ExamState),
      (∀ e ∈ events, validEvent questions e) → ExamInv questions s →
      ExamInv questions (events.foldl (examStep questions) s) := by
  intro events
  induction events with
  | nil => intro s _ h; exact h
  | cons e es ih =>
    intro s hv h
    exact ih _ (fun x hx => hv x (List.mem_cons_of_mem _ hx))
      (examStep_inv questions s e (hv e (List.mem_cons_self _ _)) h)

/-- C6 amended: in a fresh exam session, the transition to `submitted` is
permitted only when every rendered question has a selected answer — but
with zero questions submission is immediately permitted rather than
disabled (see the counterexample). -/
theorem exam_submit_only_when_all_answered (questions : List ExamQuestionT)
    (events : List ExamEvent) (hv : ∀ e ∈ events, validEvent questions e)
    (hsub : (runExam questions events).submitted = true) :
    ∀ q ∈ questions, (lookupAns (runExam questions events).answers q.id).isSome := by
  have hinv : ExamInv questions (runExam questions events) :=
    runExam_inv questions events ⟨[], false⟩ hv
      ⟨List.nodup_nil, by simp, by simp⟩
  exact hinv.2.2 hsub

/-- Witness for C6 amended: a one-question exam where the question is
answered and then submitted. -/
theorem exam_submit_only_when_all_answered_witness :
    (lookupAns (runExam [⟨1, "q", ["a", "b"], 0, "e"⟩]
      [ExamEvent.select 1 0, ExamEvent.submit]).answers 1).isSome := by
  have h := exam_submit_only_when_all_answered [⟨1, "q", ["a", "b"], 0, "e"⟩]
    [ExamEvent.select 1 0, ExamEvent.submit]
    (by
      intro e he
      rcases List.mem_cons.mp he with rfl | he2
      · simp [validEvent]
      · rcases List.mem_cons.mp he2 with rfl | h3
        · trivial
        · cases h3)
    (by rfl)
  exact h ⟨1, "q", ["a", "b"], 0, "e"⟩ (List.mem_singleton.2 rfl)

/-- Helper: a conditional-counting fold equals `countP`. -/
theorem foldl_count {α : Type} (p : α → Bool) (l : List α) (n : Nat) :
    l.foldl (fun s a => if p a then s + 1 else s) n = n + l.countP p := by
  induction l generalizing n with
  | nil => simp
  | cons a l ih =>
    simp only [List.foldl_cons, List.countP_cons]
    cases h : p a
    · simp [h, ih]
    · simp [h, ih]
      omega

/-- The five-question exam of the spec's scenario. -/
def exam5 : List ExamQuestionT :=
  [⟨1, "q1", ["a", "b"], 0, "e1"⟩, ⟨2, "q2", ["a", "b"], 1, "e2"⟩,
   ⟨3, "q3", ["a", "b"], 0, "e3"⟩, ⟨4, "q4", ["a", "b"], 1, "e4"⟩,
   ⟨5, "q5", ["a", "b"], 0, "e5"⟩]

/-- Answers for the scenario: questions 1–3 answered correctly, 4 and 5
incorrectly. -/
def answers5 : List (Int × Int) := [(1, 0), (2, 1), (3, 0), (4, 0), (5, 1)]

/-- C7: the reported score is exactly the count of questions whose
selected option index equals the correct option index, never exceeding
the question count (no partial or negative credit); in the spec's
scenario of five questions with three correct selections the score is
exactly 3 of 5. -/
theorem calculateScore_spec :
    (∀ (qs : List ExamQuestionT) (ans : List (Int × Int)),
      calculateScore qs ans =
        qs.countP (fun q => lookupAns ans q.id == some q.correctAnswerIndex)
      ∧ calculateScore qs ans ≤ qs.length)
    ∧ calculateScore exam5 answers5 = 3 ∧ exam5.length = 5 := by
  refine ⟨fun qs ans => ?_, by decide, by decide⟩
  have h1 : calculateScore qs ans =
      qs.countP (fun q => lookupAns ans q.id == some q.correctAnswerIndex) := by
    have hc := foldl_count (fun q => lookupAns ans q.id == some q.correctAnswerIndex) qs 0
    simpa [calculateScore] using hc
  exact ⟨h1, h1 ▸ List.countP_le_length _⟩

/-- C9: starting a new playback does not stop the previous one — the
source handle is discarded and `stop()` is never called — so two
playbacks started one second apart on ten-second buffers are both
audible at time 1: two buffers play at the same time, and every earlier
start survives a new `playAudioBuffer` call unchanged. -/
theorem playback_overlap_on_new_start :
    playingCount (playAudioBufferModel (playAudioBufferModel ⟨[]⟩ 0 10) 1 10) 1 = 2
    ∧ (∀ (sess : AudioSession) (now dur : Int),
        (playAudioBufferModel sess now dur).playing = sess.playing ++ [(now, dur)]) :=
  ⟨by decide, fun _ _ _ => rfl⟩

/-- C10: the shaped lesson text is never empty — an absent or empty reply
text becomes the literal placeholder, and a non-empty reply is kept. -/
theorem generateLessonShape_spec :
    (∀ t, (generateLessonShape t).isEmpty = false)
    ∧ generateLessonShape none = "Failed to generate content."
    ∧ generateLessonShape (some "") = "Failed to generate content." := by
  refine ⟨?_, rfl, rfl⟩
  intro t
  match t with
  | none => rfl
  | some s =>
    show (if s = "" then "Failed to generate content." else s).isEmpty = false
    split
    · rfl
    · rename_i hs
      cases hemp : s.isEmpty
      · rfl
      · have hiff := @String.isEmpty_iff s
        exact absurd (hiff.mp hemp) hs

/-! ## The two-pass parse of `safeParseJSON` (C3) -/

/-- Helper: replacement on the empty input is empty. -/
theorem replaceFenceF_nil (fuel : Nat) : replaceFenceF fuel [] = [] := by
  cases fuel <;> rfl

/-- Helper: the first alternative cannot match unless the position starts
with a backtick. -/
theorem matchAlt1_none (c : Char) (l : List Char) (h : c ≠ '`') :
    matchAlt1 (c :: l) = none := by
  have hneg : ¬((c :: l).take 7 = fenceTag) := by
    intro heq
    rw [List.take_succ_cons] at heq
    injection heq with h1 _
    exact h h1
  unfold matchAlt1
  rw [if_neg hneg]

/-- Helper: the second alternative cannot match when the first
non-whitespace character is not a backtick. -/
theorem matchAlt2_none_of_dropWhile (cs : List Char) (d : Char) (D : List Char)
    (hdD : cs.dropWhile jsWs = d :: D) (hd : d ≠ '`') : matchAlt2 cs = none := by
  have hneg : ¬((cs.dropWhile jsWs).take 3 = ['`', '`', '`']) := by
    intro heq
    rw [hdD, List.take_succ_cons] at heq
    injection heq with h1 _
    exact hd h1
  unfold matchAlt2
  rw [if_neg hneg]

/-- Helper: a first non-whitespace character of `L` survives as the head
of `dropWhile` over `L ++ t` whenever `L` has any non-whitespace
character. -/
theorem dropWhile_app_ex (L t : List Char) (x : Char) (hx : x ∈ L)
    (hxw : jsWs x = false) :
    ∃ d D, (L ++ t).dropWhile jsWs = d :: D ∧ d ∈ L ∧ jsWs d = false := by
  induction L with
  | nil => cases hx
  | cons a L' ih =>
    by_cases hw : jsWs a = true
    · have hxL : x ∈ L' := by
        rcases List.mem_cons.mp hx with rfl | hmem
        · rw [hxw] at hw; cases hw
        · exact hmem
      obtain ⟨d, D, h1, h2, h3⟩ := ih hxL
      refine ⟨d, D, ?_, List.mem_cons_of_mem _ h2, h3⟩
      rw [List.cons_append, List.dropWhile_cons, if_pos hw]
      exact h1
    · refine ⟨a, L' ++ t, ?_, List.mem_cons_self _ _, by simpa using hw⟩
      rw [List.cons_append, List.dropWhile_cons, if_neg hw]

/-- Helper: one unfolding of the global replacement at positive fuel. -/
theorem replaceFenceF_succ (fuel : Nat) (cs : List Char) :
    replaceFenceF (fuel + 1) cs =
      match matchAlt1 cs with
      | some rem => replaceFenceF fuel rem
      | none =>
        match matchAlt2 cs with
        | some rem => replaceFenceF fuel rem
        | none =>
          match cs with
          | [] => []
          | c :: rest => c :: replaceFenceF fuel rest := rfl

/-- Helper: scanning a backtick-free text that does not end in whitespace,
followed by a closing fence, removes exactly the closing fence. -/
theorem replaceFenceF_core (J : List Char) : ∀ (fuel : Nat),
    J.length + 4 ≤ fuel →
    (∀ c ∈ J, c ≠ '`') →
    (∀ c, J.getLast? = some c → jsWs c = false) →
    replaceFenceF fuel (J ++ fenceClose) = J := by
  induction J with
  | nil =>
    intro fuel hf _ _
    cases fuel with
    | zero => omega
    | succ f =>
      show replaceFenceF (f + 1) fenceClose = []
      rw [replaceFenceF_succ, show matchAlt1 fenceClose = none from rfl,
        show matchAlt2 fenceClose = some [] from rfl]
      exact replaceFenceF_nil f
  | cons c J' ih =>
    intro fuel hf hb hlast
    cases fuel with
    | zero => omega
    | succ f =>
      have hc : c ≠ '`' := hb c (List.mem_cons_self _ _)
      have h1 : matchAlt1 (c :: (J' ++ fenceClose)) = none := matchAlt1_none c _ hc
      have h2 : matchAlt2 (c :: (J' ++ fenceClose)) = none := by
        by_cases hw : jsWs c = true
        · cases hJ : J' with
          | nil =>
            subst hJ
            have := hlast c rfl
            rw [hw] at this
            cases this
          | cons a t =>
            subst hJ
            have hxlast : (a :: t).getLast? =
                some ((a :: t).getLast (by simp)) := List.getLast?_eq_getLast _ (by simp)
            have hxw : jsWs ((a :: t).getLast (by simp)) = false := by
              refine hlast _ ?_
              rw [List.getLast?_cons_cons]
              exact hxlast
            have hxmem : (a :: t).getLast (by simp) ∈ a :: t := List.getLast_mem _
            obtain ⟨d, D, hdD, hdmem, _⟩ :=
              dropWhile_app_ex (a :: t) fenceClose _ hxmem hxw
            have hd : d ≠ '`' := hb d (List.mem_cons_of_mem _ hdmem)
            refine matchAlt2_none_of_dropWhile _ d D ?_ hd
            rw [List.dropWhile_cons, if_pos hw]
            exact hdD
        · exact matchAlt2_none_of_dropWhile _ c (J' ++ fenceClose)
            (by rw [List.dropWhile_cons, if_neg hw]) hc
      show replaceFenceF (f + 1) ((c :: J') ++ fenceClose) = c :: J'
      rw [List.cons_append, replaceFenceF_succ, h1, h2]
      show c :: replaceFenceF f (J' ++ fenceClose) = c :: J'
      rw [ih f (by rw [List.length_cons] at hf; omega)
        (fun x hx => hb x (List.mem_cons_of_mem _ hx))
        (fun x hx => by
          refine hlast x ?_
          cases hJ : J' with
          | nil => subst hJ; cases hx
          | cons a t => subst hJ; rw [List.getLast?_cons_cons]; exact hx)]

/-- Helper: cleaning a backtick-free, whitespace-trimmed text wrapped in
the tagged fences recovers the text exactly. -/
theorem replaceFence_wrapped (J : List Char)
    (hb : ∀ c ∈ J, c ≠ '`') (hne : J ≠ [])
    (hh : ∀ c, J.head? = some c → jsWs c = false)
    (hl : ∀ c, J.getLast? = some c → jsWs c = false) :
    replaceFence (fenceOpen ++ J ++ fenceClose) = J := by
  cases J with
  | nil => exact absurd rfl hne
  | cons a J' =>
    have haw : jsWs a = false := hh a rfl
    have hstep : matchAlt1 (fenceOpen ++ (a :: J') ++ fenceClose) =
        some (a :: (J' ++ fenceClose)) := by
      rw [show matchAlt1 (fenceOpen ++ (a :: J') ++ fenceClose) =
        some (('\n' :: (a :: (J' ++ fenceClose))).dropWhile jsWs) from rfl]
      rw [List.dropWhile_cons, if_pos (show jsWs '\n' = true from rfl),
        List.dropWhile_cons, if_neg (by simp [haw])]
    have hlen : (fenceOpen ++ (a :: J') ++ fenceClose).length = (J'.length + 12) + 1 := by
      simp only [List.length_append, List.length_cons, fenceOpen, fenceClose]
      simp
      omega
    unfold replaceFence
    rw [hlen, replaceFenceF_succ, hstep]
    have := replaceFenceF_core (a :: J') (J'.length + 12)
      (by simp only [List.length_cons]; omega) hb hl
    rw [List.cons_append] at this
    exact this

/-- Helper: `JSON.parse` rejects any input whose first character is a
backtick. -/
theorem parseValue_backtick (fuel : Nat) (R : List Char) :
    parseValue (fuel + 1) ('`' :: R) = none := by
  have hskip : skipWs ('`' :: R) = '`' :: R := by
    unfold skipWs
    rw [List.dropWhile_cons, if_neg (by decide)]
  simp only [parseValue, hskip]
  rfl

/-- Helper: the direct parse of a fence-wrapped text fails — the text
starts with a backtick. -/
theorem jsonParseL_wrapped_none (X : List Char) :
    jsonParseL (fenceOpen ++ X) = none := by
  show jsonParseL ('`' :: ('`' :: '`' :: 'j' :: 's' :: 'o' :: 'n' :: '\n' :: X)) = none
  unfold jsonParseL
  rw [parseValue_backtick]

/-- Helper: dropping leading whitespace is the identity when the head is
not whitespace. -/
theorem dropWhile_eq_self_of_head (L : List Char)
    (hh : ∀ c, L.head? = some c → jsWs c = false) : L.dropWhile jsWs = L := by
  cases L with
  | nil => rfl
  | cons a t =>
    rw [List.dropWhile_cons, if_neg]
    simp [hh a rfl]

/-- Helper: `trim` is the identity on a text with non-whitespace ends. -/
theorem trimL_eq_self (L : List Char)
    (hh : ∀ c, L.head? = some c → jsWs c = false)
    (hl : ∀ c, L.getLast? = some c → jsWs c = false) : trimL L = L := by
  unfold trimL
  rw [dropWhile_eq_self_of_head L hh, dropWhile_eq_self_of_head L.reverse ?_]
  · exact List.reverse_reverse L
  · intro c hc
    rw [List.head?_reverse] at hc
    exact hl c hc

/-- Helper: the empty input does not parse. -/
theorem jsonParseL_nil : jsonParseL [] = none := rfl

/-- C3 counterexample: a fenced-code wrapper with a different language
tag.  The text is "[1,2]" wrapped in a fence tagged `yaml`; the interior
is valid structured text, yet the cleanup removes only the backticks and
leaves the tag, so the second-pass parse fails and `safeParseJSON`
returns `null` instead of succeeding. -/
theorem safeParseJSON_yaml_fence_fails :
    (jsonParse "[1,2]").isSome = true
    ∧ jsonParseL (cleanedTextL "```yaml\n[1,2]\n```".data) = none
    ∧ safeParseJSONL "```yaml\n[1,2]\n```".data = Json.null :=
  ⟨rfl, rfl, rfl⟩

/-- C3 amended: `safeParseJSON` attempts a direct parse first and returns
its value on success; on failure it parses the fence-cleaned text exactly
once and returns that value on success; when both attempts fail it
returns `null` rather than crashing.  The second pass succeeds for the
fence the cleanup actually strips: a response wrapped in the
`json`-tagged code fence around a valid, backtick-free,
whitespace-trimmed body parses on the second pass to exactly the body's
value (a fence with another language tag is left mangled and fails — see
the counterexample). -/
theorem safeParseJSON_two_pass :
    (∀ cs v, jsonParseL cs = some v → safeParseJSONL cs = v)
    ∧ (∀ cs v, jsonParseL cs = none → jsonParseL (cleanedTextL cs) = some v →
        safeParseJSONL cs = v)
    ∧ (∀ cs, jsonParseL cs = none → jsonParseL (cleanedTextL cs) = none →
        safeParseJSONL cs = .null)
    ∧ (∀ J v, jsonParseL J = some v →
        J.all (fun c => !(c == '`')) = true →
        (J.head?.all fun c => !jsWs c) = true →
        (J.getLast?.all fun c => !jsWs c) = true →
        jsonParseL (cleanedTextL (fenceOpen ++ J ++ fenceClose)) = some v
        ∧ safeParseJSONL (fenceOpen ++ J ++ fenceClose) = v) := by
  refine ⟨?_, ?_, ?_, ?_⟩
  · intro cs v h
    cases cs with
    | nil => rw [jsonParseL_nil] at h; cases h
    | cons a t => simp [safeParseJSONL, h]
  · intro cs v h1 h2
    cases cs with
    | nil =>
      rw [show cleanedTextL [] = [] from rfl, jsonParseL_nil] at h2
      cases h2
    | cons a t => simp [safeParseJSONL, h1, h2]
  · intro cs h1 h2
    cases cs with
    | nil => rfl
    | cons a t => simp [safeParseJSONL, h1, h2]
  · intro J v hv hb hh hl
    have hb' : ∀ c ∈ J, c ≠ '`' := by
      intro c hc
      have := List.all_eq_true.1 hb c hc
      simpa using this
    have hh' : ∀ c, J.head? = some c → jsWs c = false := by
      intro c hc
      rw [hc] at hh
      simpa using hh
    have hl' : ∀ c, J.getLast? = some c → jsWs c = false := by
      intro c hc
      rw [hc] at hl
      simpa using hl
    have hne : J ≠ [] := by
      rintro rfl
      rw [jsonParseL_nil] at hv
      cases hv
    have hclean : cleanedTextL (fenceOpen ++ J ++ fenceClose) = J := by
      unfold cleanedTextL
      rw [replaceFence_wrapped J hb' hne hh' hl']
      exact trimL_eq_self J hh' hl'
    have hdirect : jsonParseL (fenceOpen ++ J ++ fenceClose) = none := by
      have := jsonParseL_wrapped_none (J ++ fenceClose)
      rw [← List.append_assoc] at this
      exact this
    refine ⟨by rw [hclean]; exact hv, ?_⟩
    have hne2 : ¬((fenceOpen ++ J ++ fenceClose).isEmpty = true) := by
      simp [fenceOpen]
    unfold safeParseJSONL
    rw [if_neg hne2, hdirect, hclean, hv]

/-- Witness for C3 on the fence-wrapped body "[1,2]": the second pass
parses it to the array value while the direct pass fails. -/
theorem safeParseJSON_two_pass_witness :
    jsonParseL (cleanedTextL (fenceOpen ++ "[1,2]".data ++ fenceClose)) =
      some (Json.arr [Json.num ⟨false, ['1'], [], []⟩, Json.num ⟨false, ['2'], [], []⟩])
    ∧ safeParseJSONL (fenceOpen ++ "[1,2]".data ++ fenceClose) =
      Json.arr [Json.num ⟨false, ['1'], [], []⟩, Json.num ⟨false, ['2'], [], []⟩] :=
  safeParseJSON_two_pass.2.2.2 "[1,2]".data
    (Json.arr [Json.num ⟨false, ['1'], [], []⟩, Json.num ⟨false, ['2'], [], []⟩])
    (by rfl) (by rfl) (by rfl) (by rfl)

end VibeTutor
